import Mathlib

/-!
Verification of the FaceFilterer repository (EncodeGenerator.py,
separate_images.py, gui_app.py) against its natural-language specification.

The face-detection/encoding library is treated as an oracle (a function
parameter).  Face encodings are modelled as rational vectors; the Euclidean
distance computed by `face_recognition.face_distance` is represented by its
square `distSq` (an exact rational), with `faceDist = Real.sqrt distSq`
giving the actual distance.  Comparing distances with each other or with a
nonnegative tolerance is equivalent to comparing their squares, which the
bridging lemmas below make precise, so the squared representation is an
exact model of the code's comparisons.
-/

namespace FaceFilterer

/-- ASCII lower-casing of one character, as done by Python `str.lower`
on ASCII input (the file names in the claims are ASCII). -/
def lowerChar (c : Char) : Char :=
  if 'A' ≤ c ∧ c ≤ 'Z' then Char.ofNat (c.toNat + 32) else c

/-- Python `str.lower` on ASCII strings. -/
def lowerStr (s : String) : String :=
  String.mk (s.data.map lowerChar)

/-- Python `str.endswith` for a single suffix. -/
def strEndsWith (s suf : String) : Bool :=
  List.isSuffixOf suf.data s.data

/-- Python `os.path.join` for a relative second component (POSIX). -/
def joinPath (a b : String) : String :=
  a ++ "/" ++ b

/-- Python `os.path.basename`: everything after the last `/`. -/
def basename (p : String) : String :=
  String.mk ((p.data.reverse.takeWhile (fun c => c ≠ '/')).reverse)

/-- Python `os.path.splitext(p)[0]`: strip the extension after the last dot,
where leading dots of the name do not count as extension separators. -/
def splitextBase (p : String) : String :=
  let cs := p.data
  let lead := (cs.takeWhile (fun c => c = '.')).length
  let rest := cs.drop lead
  let k := (rest.reverse.takeWhile (fun c => c ≠ '.')).length
  if k = rest.length then p
  else String.mk (cs.take (lead + (rest.length - k - 1)))

/-- The extension filter of `EncodeGenerator.py`
(`path.endswith(valid_extensions)`): case-sensitive. -/
def validExtRaw (f : String) : Bool :=
  strEndsWith f ".png" || strEndsWith f ".jpg" || strEndsWith f ".jpeg"

/-- The extension filter of `separate_images.py` and `gui_app.py`
(`filename.lower().endswith(valid_extensions)`): case-insensitive. -/
def validExtLower (f : String) : Bool :=
  strEndsWith (lowerStr f) ".png" || strEndsWith (lowerStr f) ".jpg" ||
    strEndsWith (lowerStr f) ".jpeg"

/-- A face encoding: a numeric vector (128-dimensional in practice;
the dimension is irrelevant to every claim). -/
abbrev FaceEncoding := List ℚ

/-- Squared Euclidean distance between two encodings, the exact rational
representation of `np.linalg.norm(a - b)` squared. -/
def distSq (a b : FaceEncoding) : ℚ :=
  (List.zipWith (fun x y => (x - y) * (x - y)) a b).sum

theorem distSq_nil_left (b : FaceEncoding) : distSq [] b = 0 := by
  simp [distSq]

theorem distSq_nil_right (a : FaceEncoding) : distSq a [] = 0 := by
  cases a <;> simp [distSq]

theorem distSq_cons (x y : ℚ) (xs ys : FaceEncoding) :
    distSq (x :: xs) (y :: ys) = (x - y) * (x - y) + distSq xs ys := by
  simp [distSq]

theorem distSq_nonneg (a b : FaceEncoding) : 0 ≤ distSq a b := by
  induction a generalizing b with
  | nil => simp [distSq_nil_left]
  | cons x xs ih =>
    cases b with
    | nil => simp [distSq_nil_right]
    | cons y ys =>
      rw [distSq_cons]
      have h1 : 0 ≤ (x - y) * (x - y) := mul_self_nonneg _
      have h2 := ih ys
      linarith

theorem distSq_self (a : FaceEncoding) : distSq a a = 0 := by
  induction a with
  | nil => simp [distSq_nil_left]
  | cons x xs ih => rw [distSq_cons]; simp [ih]

/-- The actual Euclidean distance computed by
`face_recognition.face_distance`, as a real number. -/
noncomputable def faceDist (a b : FaceEncoding) : ℝ :=
  Real.sqrt ((distSq a b : ℚ) : ℝ)

theorem faceDist_le_faceDist_iff (a b c d : FaceEncoding) :
    faceDist a b ≤ faceDist c d ↔ distSq a b ≤ distSq c d := by
  unfold faceDist
  constructor
  · intro h
    have hab : (0:ℝ) ≤ ((distSq a b : ℚ) : ℝ) := by
      exact_mod_cast distSq_nonneg a b
    have hcd : (0:ℝ) ≤ ((distSq c d : ℚ) : ℝ) := by
      exact_mod_cast distSq_nonneg c d
    have h1 : ((distSq a b : ℚ) : ℝ) ≤ ((distSq c d : ℚ) : ℝ) := by
      have e1 := Real.mul_self_sqrt hab
      have e2 := Real.mul_self_sqrt hcd
      calc ((distSq a b : ℚ) : ℝ)
          = Real.sqrt ((distSq a b : ℚ) : ℝ) * Real.sqrt ((distSq a b : ℚ) : ℝ) := e1.symm
        _ ≤ Real.sqrt ((distSq c d : ℚ) : ℝ) * Real.sqrt ((distSq c d : ℚ) : ℝ) :=
            mul_self_le_mul_self (Real.sqrt_nonneg _) h
        _ = ((distSq c d : ℚ) : ℝ) := e2
    exact_mod_cast h1
  · intro h
    exact Real.sqrt_le_sqrt (by exact_mod_cast h)

theorem faceDist_lt_faceDist_iff (a b c d : FaceEncoding) :
    faceDist a b < faceDist c d ↔ distSq a b < distSq c d := by
  constructor
  · intro h
    by_contra hc
    push_neg at hc
    exact absurd ((faceDist_le_faceDist_iff c d a b).mpr hc) (not_le.mpr h)
  · intro h
    by_contra hc
    push_neg at hc
    exact absurd ((faceDist_le_faceDist_iff c d a b).mp hc) (not_le.mpr h)

/-- Comparing the Euclidean distance with a nonnegative tolerance is the
same as comparing the squared distance with the squared tolerance. -/
theorem faceDist_le_tol_iff (a b : FaceEncoding) (tol : ℚ) (ht : 0 ≤ tol) :
    faceDist a b ≤ (tol : ℝ) ↔ distSq a b ≤ tol * tol := by
  unfold faceDist
  have hab : (0:ℝ) ≤ ((distSq a b : ℚ) : ℝ) := by exact_mod_cast distSq_nonneg a b
  have htr : (0:ℝ) ≤ (tol : ℝ) := by exact_mod_cast ht
  constructor
  · intro h
    have h1 : ((distSq a b : ℚ) : ℝ) ≤ (tol : ℝ) * (tol : ℝ) := by
      calc ((distSq a b : ℚ) : ℝ)
          = Real.sqrt ((distSq a b : ℚ) : ℝ) * Real.sqrt ((distSq a b : ℚ) : ℝ) :=
            (Real.mul_self_sqrt hab).symm
        _ ≤ (tol : ℝ) * (tol : ℝ) := mul_self_le_mul_self (Real.sqrt_nonneg _) h
    exact_mod_cast h1
  · intro h
    have h1 : ((distSq a b : ℚ) : ℝ) ≤ (tol : ℝ) * (tol : ℝ) := by exact_mod_cast h
    calc Real.sqrt ((distSq a b : ℚ) : ℝ)
        ≤ Real.sqrt ((tol : ℝ) * (tol : ℝ)) := Real.sqrt_le_sqrt h1
      _ = (tol : ℝ) := Real.sqrt_mul_self htr

/-- One step of the left-to-right minimum scan of `np.argmin`: combine the
head element with the argmin of the tail (ties resolved to the earlier,
i.e. the head, index). -/
def npArgminStep (x : ℚ) (xs : List ℚ) : Option ℕ → Option ℕ
  | none => some 0
  | some j => if xs.getD j 0 < x then some (j + 1) else some 0

/-- NumPy `np.argmin` on a list of rationals: the first index achieving the
minimum value, `none` on the empty list (where NumPy raises
`ValueError: attempt to get argmin of an empty sequence`). -/
def npArgmin : List ℚ → Option ℕ
  | [] => none
  | x :: xs => npArgminStep x xs (npArgmin xs)

theorem npArgmin_nil : npArgmin [] = none := rfl

theorem npArgmin_cons (x : ℚ) (xs : List ℚ) :
    npArgmin (x :: xs) = npArgminStep x xs (npArgmin xs) := rfl

theorem npArgmin_eq_none_iff (l : List ℚ) : npArgmin l = none ↔ l = [] := by
  cases l with
  | nil => simp [npArgmin]
  | cons x xs =>
    rw [npArgmin_cons]
    cases h : npArgmin xs with
    | none => simp [npArgminStep]
    | some j =>
      constructor
      · intro hc
        rw [npArgminStep] at hc
        split at hc <;> simp at hc
      · intro hc
        exact absurd hc (List.cons_ne_nil x xs)

/-- Lemma: `npArgmin` returns the first index achieving the minimum:
its value is a lower bound of the whole list, and strictly below every
earlier entry. -/
theorem npArgmin_spec (l : List ℚ) (hl : l ≠ []) :
    ∃ i, npArgmin l = some i ∧ i < l.length ∧
      (∀ j, j < l.length → l.getD i 0 ≤ l.getD j 0) ∧
      (∀ j, j < i → l.getD j 0 > l.getD i 0) := by
  induction l with
  | nil => exact absurd rfl hl
  | cons x xs ih =>
    by_cases hxs : xs = []
    · subst hxs
      refine ⟨0, ?_, ?_, ?_, ?_⟩
      · rfl
      · simp
      · intro j hj
        have hj0 : j = 0 := by simp at hj; omega
        subst hj0; simp
      · intro j hj
        omega
    · obtain ⟨j, hrec, hjlen, hmin, hfirst⟩ := ih hxs
      by_cases hcond : xs.getD j 0 < x
      · refine ⟨j + 1, ?_, ?_, ?_, ?_⟩
        · rw [npArgmin_cons, hrec, npArgminStep, if_pos hcond]
        · simpa using Nat.succ_lt_succ hjlen
        · intro m hm
          cases m with
          | zero =>
            simpa using le_of_lt hcond
          | succ k =>
            have hk : k < xs.length := by simpa using hm
            simpa using hmin k hk
        · intro m hm
          cases m with
          | zero =>
            simpa using hcond
          | succ k =>
            have hk : k < j := by omega
            simpa using hfirst k hk
      · push_neg at hcond
        refine ⟨0, ?_, ?_, ?_, ?_⟩
        · rw [npArgmin_cons, hrec, npArgminStep, if_neg (not_lt.mpr hcond)]
        · simp
        · intro m hm
          cases m with
          | zero => simp
          | succ k =>
            have hk : k < xs.length := by simpa using hm
            have h1 : xs.getD j 0 ≤ xs.getD k 0 := hmin k hk
            simpa using le_trans hcond h1
        · intro m hm
          omega

/-- Models `face_recognition.face_distance(encodeListKnown, face_encoding)`:
the list of (squared) distances from each known encoding to the probe. -/
def faceDistances (known : List FaceEncoding) (probe : FaceEncoding) : List ℚ :=
  known.map (fun e => distSq e probe)

theorem faceDistances_length (known : List FaceEncoding) (probe : FaceEncoding) :
    (faceDistances known probe).length = known.length :=
  List.length_map known _

theorem faceDistances_getD (known : List FaceEncoding) (probe : FaceEncoding)
    (j : ℕ) (hj : j < known.length) :
    (faceDistances known probe).getD j 0 = distSq (known.getD j []) probe := by
  induction known generalizing j with
  | nil => simp at hj
  | cons e rest ih =>
    cases j with
    | zero => simp [faceDistances]
    | succ k =>
      have hk : k < rest.length := by simpa using hj
      simpa [faceDistances] using ih k hk

theorem get?_eq_some_getD (l : List ℚ) (i : ℕ) (hi : i < l.length) :
    l.get? i = some (l.getD i 0) := by
  induction l generalizing i with
  | nil => simp at hi
  | cons x xs ih =>
    cases i with
    | zero => simp
    | succ k =>
      have hk : k < xs.length := by simpa using hi
      simpa using ih k hk

theorem getS?_eq_some_getD (l : List String) (i : ℕ) (hi : i < l.length) :
    l.get? i = some (l.getD i "") := by
  induction l generalizing i with
  | nil => simp at hi
  | cons x xs ih =>
    cases i with
    | zero => simp
    | succ k =>
      have hk : k < xs.length := by simpa using hi
      simpa using ih k hk

/-- The core comparison primitive realized by `separate_images.py`
lines 47-54: `matches = compare_faces(known, probe, tolerance)` (i.e.
`distance <= tolerance` pointwise), `match_index = np.argmin(distances)`,
and, when `matches[match_index]` holds, the matched label
`studentIds[match_index]` together with its (squared) distance.
Out-of-range indexing and `np.argmin` of an empty sequence raise, which is
modelled by `Except.error ()`.  `tolSq` is the square of the tolerance
(the code uses tolerance 0.6, i.e. `tolSq = 9/25`). -/
def matchPrim (known : List FaceEncoding) (ids : List String)
    (probe : FaceEncoding) (tolSq : ℚ) : Except Unit (Option (String × ℚ)) :=
  match npArgmin (faceDistances known probe) with
  | none => Except.error ()
  | some mi =>
    match (faceDistances known probe).get? mi with
    | none => Except.error ()
    | some d =>
      if d ≤ tolSq then
        match ids.get? mi with
        | none => Except.error ()
        | some l => Except.ok (some (l, d))
      else Except.ok none

/-- The oracle interface to the external image and face libraries:
`cv2.imread` (`none` when the file is unreadable) and the composition of
`cv2.cvtColor`, `face_recognition.face_locations` and
`face_recognition.face_encodings` (the encodings of all detected faces). -/
structure ScanEnv (I : Type) where
  readImage : String → Option I
  faceEncodings : I → List FaceEncoding

/-- The filter/read loop at the top of `EncodeGenerator.py` (lines 14-18):
files whose raw name ends in `.png`/`.jpg`/`.jpeg` contribute the decoded
image (possibly `None`) to `imgList` and their extension-stripped name to
`studentIds`. -/
def encoderLists (I : Type) (readImage : String → Option I)
    (pathList : List String) : List (Option I) × List String :=
  pathList.foldl
    (fun acc path =>
      if validExtRaw path then
        (acc.1 ++ [readImage (joinPath "Images" path)],
         acc.2 ++ [splitextBase path])
      else acc)
    ([], [])

/-- Function `findEncodings` of `EncodeGenerator.py` (lines 22-30): skip `None`
images, otherwise take `face_encodings(img)[0]`; the indexing raises
(`Except.error ()`) when no face is detected. -/
def findEncodings (I : Type) (fe : I → List FaceEncoding) :
    List (Option I) → Except Unit (List FaceEncoding)
  | [] => Except.ok []
  | none :: rest => findEncodings I fe rest
  | some img :: rest =>
    match fe img with
    | [] => Except.error ()
    | e :: _ =>
      match findEncodings I fe rest with
      | Except.error u => Except.error u
      | Except.ok es => Except.ok (e :: es)

/-- The inner face loop of `find_matched_images` in `gui_app.py`
(lines 77-86): `compare_faces([face_encoding], enc, tolerance=0.6)[0]`,
stopping at the first matching face. -/
def guiFaceLoop (probe : FaceEncoding) : List FaceEncoding → Bool
  | [] => false
  | e :: rest =>
    if distSq probe e ≤ (9 : ℚ)/25 then true else guiFaceLoop probe rest

/-- Whether one candidate file produces a match in `find_matched_images`:
unreadable images are skipped (no match). -/
def guiScanFile (I : Type) (env : ScanEnv I) (probe : FaceEncoding)
    (filepath : String) : Bool :=
  match env.readImage filepath with
  | none => false
  | some img => guiFaceLoop probe (env.faceEncodings img)

/-- Observable callback invocations of the interactive scan:
`progress_callback(i, total)` and `matched_callback(filepath)`. -/
inductive ScanEvent where
  | progress : ℕ → ℕ → ScanEvent
  | matched : String → ScanEvent
deriving DecidableEq

/-- The body of the `enumerate(all_files, start=1)` loop of
`find_matched_images` (`gui_app.py` lines 64-86): per file, the progress
callback fires first, then the file is read and its faces compared;
on the first matching face the path is recorded and the match callback
fires. Returns the matched paths and the callback trace. -/
def guiScanAux (I : Type) (env : ScanEnv I) (probe : FaceEncoding)
    (folder : String) (total : ℕ) :
    List String → ℕ → List String × List ScanEvent
  | [], _ => ([], [])
  | f :: rest, i =>
    let fp := joinPath folder f
    let r := guiScanAux I env probe folder total rest (i + 1)
    if guiScanFile I env probe fp then
      (fp :: r.1, ScanEvent.progress i total :: ScanEvent.matched fp :: r.2)
    else
      (r.1, ScanEvent.progress i total :: r.2)

/-- Function `find_matched_images(source_folder, face_encoding, ...)` of
`gui_app.py` (lines 45-88). -/
def find_matched_images (I : Type) (env : ScanEnv I) (folder : String)
    (files : List String) (probe : FaceEncoding) :
    List String × List ScanEvent :=
  let all_files := files.filter (fun f => validExtLower f)
  guiScanAux I env probe folder all_files.length all_files 1

/-- Extract a progress invocation from an event. -/
def progressOf : ScanEvent → Option (ℕ × ℕ)
  | ScanEvent.progress i t => some (i, t)
  | ScanEvent.matched _ => none

/-- Extract a match invocation from an event. -/
def matchedOf : ScanEvent → Option String
  | ScanEvent.progress _ _ => none
  | ScanEvent.matched p => some p

/-- The face loop of `separate_images.py` (lines 45-56): for each detected
face run the comparison primitive; stop with `true` as soon as the matched
label equals the target id, otherwise keep scanning the remaining faces. -/
def separateFaceLoop (known : List FaceEncoding) (ids : List String)
    (target : String) : List FaceEncoding → Except Unit Bool
  | [] => Except.ok false
  | enc :: rest =>
    match matchPrim known ids enc ((9 : ℚ)/25) with
    | Except.error u => Except.error u
    | Except.ok none => separateFaceLoop known ids target rest
    | Except.ok (some (l, _)) =>
      if l = target then Except.ok true
      else separateFaceLoop known ids target rest

/-- The folder loop of `separate_images.py` (lines 26-65): iterate the
listing, process files whose lowercased name has a valid extension, skip
unreadable images, and collect (copy) the files in which the target person
was found. -/
def separateScan (I : Type) (env : ScanEnv I) (folder : String)
    (known : List FaceEncoding) (ids : List String) (target : String) :
    List String → Except Unit (List String)
  | [] => Except.ok []
  | f :: rest =>
    if validExtLower f then
      match env.readImage (joinPath folder f) with
      | none => separateScan I env folder known ids target rest
      | some img =>
        match separateFaceLoop known ids target (env.faceEncodings img) with
        | Except.error u => Except.error u
        | Except.ok found =>
          match separateScan I env folder known ids target rest with
          | Except.error u => Except.error u
          | Except.ok ms => Except.ok (if found then f :: ms else ms)
    else separateScan I env folder known ids target rest

/-- The ZIP export of `gui_app.py` (lines 312-315): write each matched
file under its base name, in order.  The archive is the ordered list of
(entry name, entry bytes) pairs; `readBytes` is the file-content oracle. -/
def writeZip (C : Type) (readBytes : String → C) (paths : List String) :
    List (String × C) :=
  paths.map (fun p => (basename p, readBytes p))

/-- Extraction from the archive: the entry written last under a given name
wins, as when a ZIP with duplicate names is extracted. -/
def extractEntry (C : Type) : List (String × C) → String → Option C
  | [], _ => none
  | (n, c) :: rest, name =>
    match extractEntry C rest name with
    | some c2 => some c2
    | none => if n = name then some c else none

theorem matchPrim_of_argmin (known : List FaceEncoding) (ids : List String)
    (probe : FaceEncoding) (tolSq : ℚ) (i : ℕ)
    (hargm : npArgmin (faceDistances known probe) = some i)
    (hi : i < known.length) (hlen : ids.length = known.length) :
    matchPrim known ids probe tolSq =
      if distSq (known.getD i []) probe ≤ tolSq then
        Except.ok (some (ids.getD i "", distSq (known.getD i []) probe))
      else Except.ok none := by
  have hd : (faceDistances known probe).get? i =
      some ((faceDistances known probe).getD i 0) :=
    get?_eq_some_getD _ i (by rw [faceDistances_length]; exact hi)
  have hs : ids.get? i = some (ids.getD i "") :=
    getS?_eq_some_getD ids i (by omega)
  simp only [matchPrim, hargm, hd, hs, faceDistances_getD known probe i hi]

/-- Claim C2: on a non-empty `KnownSet`, the match primitive takes the
stable argmin `i*` of the Euclidean distances from the probe to the known
encodings (first index achieving the minimum) and returns
`some (labels[i*], distance[i*])` exactly when `distance[i*] ≤ tolerance`
(distances being reported through their exact squares). -/
theorem matchPrim_nearest_within_tolerance (known : List FaceEncoding)
    (ids : List String) (probe : FaceEncoding) (tol : ℚ)
    (hne : known ≠ []) (hlen : ids.length = known.length) (htol : 0 ≤ tol) :
    ∃ i, i < known.length ∧
      (∀ j, j < known.length →
        faceDist (known.getD i []) probe ≤ faceDist (known.getD j []) probe) ∧
      (∀ j, j < i →
        faceDist (known.getD i []) probe < faceDist (known.getD j []) probe) ∧
      (faceDist (known.getD i []) probe ≤ (tol : ℝ) →
        matchPrim known ids probe (tol * tol) =
          Except.ok (some (ids.getD i "", distSq (known.getD i []) probe))) ∧
      ((tol : ℝ) < faceDist (known.getD i []) probe →
        matchPrim known ids probe (tol * tol) = Except.ok none) := by
  have hne' : faceDistances known probe ≠ [] := by
    intro hcontra
    apply hne
    have hl := faceDistances_length known probe
    rw [hcontra] at hl
    exact List.length_eq_zero.mp hl.symm
  obtain ⟨i, hargm, hilen, hmin, hfirst⟩ := npArgmin_spec _ hne'
  have hi : i < known.length := by rwa [faceDistances_length] at hilen
  refine ⟨i, hi, ?_, ?_, ?_, ?_⟩
  · intro j hj
    rw [faceDist_le_faceDist_iff]
    have h1 := hmin j (by rw [faceDistances_length]; exact hj)
    rwa [faceDistances_getD _ _ i hi, faceDistances_getD _ _ j hj] at h1
  · intro j hj
    rw [faceDist_lt_faceDist_iff]
    have h1 := hfirst j hj
    rwa [faceDistances_getD _ _ i hi,
      faceDistances_getD _ _ j (lt_trans hj hi)] at h1
  · intro hle
    rw [matchPrim_of_argmin known ids probe (tol * tol) i hargm hi hlen,
      if_pos ((faceDist_le_tol_iff _ _ tol htol).mp hle)]
  · intro hgt
    rw [matchPrim_of_argmin known ids probe (tol * tol) i hargm hi hlen, if_neg]
    intro hc
    exact absurd ((faceDist_le_tol_iff _ _ tol htol).mpr hc) (not_le.mpr hgt)

theorem matchPrim_nearest_within_tolerance_witness :
    ([[(0 : ℚ)], [1]] : List FaceEncoding) ≠ [] ∧
    (["a", "b"] : List String).length = ([[(0 : ℚ)], [1]] : List FaceEncoding).length ∧
    (0 : ℚ) ≤ 3/5 ∧
    (∃ i, i < ([[(0 : ℚ)], [1]] : List FaceEncoding).length ∧
      (∀ j, j < ([[(0 : ℚ)], [1]] : List FaceEncoding).length →
        faceDist (([[(0 : ℚ)], [1]] : List FaceEncoding).getD i []) [0] ≤
          faceDist (([[(0 : ℚ)], [1]] : List FaceEncoding).getD j []) [0]) ∧
      (∀ j, j < i →
        faceDist (([[(0 : ℚ)], [1]] : List FaceEncoding).getD i []) [0] <
          faceDist (([[(0 : ℚ)], [1]] : List FaceEncoding).getD j []) [0]) ∧
      (faceDist (([[(0 : ℚ)], [1]] : List FaceEncoding).getD i []) [0] ≤ ((3/5 : ℚ) : ℝ) →
        matchPrim [[(0 : ℚ)], [1]] ["a", "b"] [0] ((3/5 : ℚ) * (3/5)) =
          Except.ok (some ((["a", "b"] : List String).getD i "",
            distSq (([[(0 : ℚ)], [1]] : List FaceEncoding).getD i []) [0]))) ∧
      (((3/5 : ℚ) : ℝ) < faceDist (([[(0 : ℚ)], [1]] : List FaceEncoding).getD i []) [0] →
        matchPrim [[(0 : ℚ)], [1]] ["a", "b"] [0] ((3/5 : ℚ) * (3/5)) = Except.ok none)) :=
  ⟨by simp, by simp, by norm_num,
    matchPrim_nearest_within_tolerance [[(0 : ℚ)], [1]] ["a", "b"] [0] (3/5)
      (by simp) (by simp) (by norm_num)⟩

/-- Claim C3, counterexample: on an empty `KnownSet` the match primitive
does not return `None`; `np.argmin` of the empty distance array raises
(`Except.error ()`). -/
theorem matchPrim_empty_known_cex :
    matchPrim ([] : List FaceEncoding) ([] : List String) [(0 : ℚ)] ((9 : ℚ)/25) =
      Except.error () ∧
    matchPrim ([] : List FaceEncoding) ([] : List String) [(0 : ℚ)] ((9 : ℚ)/25) ≠
      Except.ok none :=
  ⟨rfl, fun h => Except.noConfusion ((rfl : matchPrim ([] : List FaceEncoding)
    ([] : List String) [(0 : ℚ)] ((9 : ℚ)/25) = Except.error ()).symm.trans h)⟩

/-- Claim C3, amended: for an empty `KnownSet` the match primitive always
fails (`np.argmin` of an empty sequence raises a `ValueError`), for every
probe, label list and tolerance; it never reports a match. -/
theorem matchPrim_empty_known_errors (ids : List String) (probe : FaceEncoding)
    (tolSq : ℚ) :
    matchPrim [] ids probe tolSq = Except.error () := rfl

/-- Claim C4, counterexample: when two known encodings are identical with
different labels, a probe equal to `encodings[1]` is reported with
`labels[0]`, not `labels[1]`: the stable argmin returns the first index at
distance zero. -/
theorem matchPrim_exact_probe_cex :
    matchPrim [[(0 : ℚ)], [0]] ["a", "b"] [0] ((9 : ℚ)/25) =
      Except.ok (some ("a", 0)) ∧
    ("a" : String) ≠ "b" :=
  ⟨by norm_num [matchPrim, faceDistances, distSq, npArgmin, npArgminStep], by decide⟩

/-- Claim C4, amended: if the probe equals `encodings[k]` and `k` is the
first index whose encoding is at distance zero from the probe, the match
primitive (at the code's tolerance 0.6, i.e. squared tolerance 9/25)
returns `(labels[k], 0)`. -/
theorem matchPrim_exact_probe_first (known : List FaceEncoding)
    (ids : List String) (probe : FaceEncoding) (k : ℕ)
    (hk : k < known.length) (hlen : ids.length = known.length)
    (heq : known.getD k [] = probe)
    (hfirst0 : ∀ j, j < k → distSq (known.getD j []) probe ≠ 0) :
    matchPrim known ids probe ((9 : ℚ)/25) =
      Except.ok (some (ids.getD k "", 0)) := by
  have hne' : faceDistances known probe ≠ [] := by
    intro hcontra
    have hl := faceDistances_length known probe
    rw [hcontra] at hl
    simp at hl
    omega
  obtain ⟨i, hargm, hilen, hmin, hfirst⟩ := npArgmin_spec _ hne'
  have hi : i < known.length := by rwa [faceDistances_length] at hilen
  have hdk : (faceDistances known probe).getD k 0 = 0 := by
    rw [faceDistances_getD _ _ k hk, heq, distSq_self]
  have hdinn : 0 ≤ (faceDistances known probe).getD i 0 := by
    rw [faceDistances_getD _ _ i hi]
    exact distSq_nonneg _ _
  have hdi0 : (faceDistances known probe).getD i 0 = 0 := by
    have hle := hmin k (by rw [faceDistances_length]; exact hk)
    rw [hdk] at hle
    exact le_antisymm hle hdinn
  have hik : i = k := by
    rcases lt_trichotomy i k with hlt | heqik | hgt
    · exfalso
      apply hfirst0 i hlt
      rw [← faceDistances_getD _ _ i hi]
      exact hdi0
    · exact heqik
    · exfalso
      have hgt2 := hfirst k hgt
      rw [hdk, hdi0] at hgt2
      exact absurd hgt2 (lt_irrefl 0)
  subst hik
  have hdist0 : distSq (known.getD i []) probe = 0 := by
    rw [← faceDistances_getD _ _ i hi]
    exact hdi0
  rw [matchPrim_of_argmin known ids probe ((9 : ℚ)/25) i hargm hi hlen, hdist0,
    if_pos (by norm_num : (0 : ℚ) ≤ 9/25)]

theorem matchPrim_exact_probe_first_witness :
    (1 < ([[(1 : ℚ)], [0]] : List FaceEncoding).length) ∧
    (["a", "b"] : List String).length = ([[(1 : ℚ)], [0]] : List FaceEncoding).length ∧
    ([[(1 : ℚ)], [0]] : List FaceEncoding).getD 1 [] = [0] ∧
    (∀ j, j < 1 → distSq (([[(1 : ℚ)], [0]] : List FaceEncoding).getD j []) [0] ≠ 0) ∧
    matchPrim [[(1 : ℚ)], [0]] ["a", "b"] [0] ((9 : ℚ)/25) =
      Except.ok (some ("b", 0)) :=
  ⟨by simp, by simp, rfl,
    by
      intro j hj
      have hj0 : j = 0 := by omega
      subst hj0
      norm_num [distSq],
    matchPrim_exact_probe_first [[(1 : ℚ)], [0]] ["a", "b"] [0] 1
      (by simp) (by simp) rfl
      (by
        intro j hj
        have hj0 : j = 0 := by omega
        subst hj0
        norm_num [distSq])⟩

theorem joinPath_right_inj (d a b : String) (h : joinPath d a = joinPath d b) :
    a = b := by
  unfold joinPath at h
  have hd := congrArg String.data h
  simp only [String.data_append] at hd
  exact String.ext (List.append_cancel_left hd)

theorem guiScanFile_unreadable (I : Type) (env : ScanEnv I) (probe : FaceEncoding)
    (fp : String) (h : env.readImage fp = none) :
    guiScanFile I env probe fp = false := by
  simp [guiScanFile, h]

/-- The matched paths of the interactive scan are exactly the valid-extension
files whose scan produced a match, each under its joined path, in directory
order. -/
theorem guiScanAux_fst (I : Type) (env : ScanEnv I) (probe : FaceEncoding)
    (folder : String) (t : ℕ) (l : List String) (i : ℕ) :
    (guiScanAux I env probe folder t l i).1 =
      (l.filter (fun f => guiScanFile I env probe (joinPath folder f))).map
        (fun f => joinPath folder f) := by
  induction l generalizing i with
  | nil => rfl
  | cons f rest ih =>
    by_cases h : guiScanFile I env probe (joinPath folder f)
    · simp [guiScanAux, h, ih, List.filter_cons]
    · simp [guiScanAux, h, ih, List.filter_cons]

theorem find_matched_fst (I : Type) (env : ScanEnv I) (folder : String)
    (files : List String) (probe : FaceEncoding) :
    (find_matched_images I env folder files probe).1 =
      ((files.filter (fun f => validExtLower f)).filter
          (fun f => guiScanFile I env probe (joinPath folder f))).map
        (fun f => joinPath folder f) := by
  unfold find_matched_images
  exact guiScanAux_fst I env probe folder _ _ 1

/-- Claim C5: each scanned file contributes its path at most once (the face
loop stops at the first matching face), and distinct files give distinct
paths, so the matched-files sequence has no repeated path. -/
theorem scan_records_each_file_once (I : Type) (env : ScanEnv I)
    (folder : String) (files : List String) (probe : FaceEncoding)
    (hnd : files.Nodup) :
    (find_matched_images I env folder files probe).1 =
      ((files.filter (fun f => validExtLower f)).filter
          (fun f => guiScanFile I env probe (joinPath folder f))).map
        (fun f => joinPath folder f) ∧
    (find_matched_images I env folder files probe).1.Nodup ∧
    ∀ p, (find_matched_images I env folder files probe).1.count p ≤ 1 := by
  have hchar := find_matched_fst I env folder files probe
  have hnd2 : (((files.filter (fun f => validExtLower f)).filter
      (fun f => guiScanFile I env probe (joinPath folder f)))).Nodup :=
    (hnd.filter _).filter _
  have hndm : (find_matched_images I env folder files probe).1.Nodup := by
    rw [hchar]
    exact hnd2.map_on (fun x _ y _ hxy => joinPath_right_inj folder x y hxy)
  exact ⟨hchar, hndm, fun p => List.nodup_iff_count_le_one.mp hndm p⟩

theorem scan_records_each_file_once_witness :
    (["a.jpg", "b.jpg"] : List String).Nodup ∧
    ((find_matched_images Unit ⟨fun _ => some (), fun _ => [[0]]⟩ "d"
        ["a.jpg", "b.jpg"] [0]).1 =
      (((["a.jpg", "b.jpg"] : List String).filter (fun f => validExtLower f)).filter
          (fun f => guiScanFile Unit ⟨fun _ => some (), fun _ => [[0]]⟩ [0]
            (joinPath "d" f))).map (fun f => joinPath "d" f) ∧
      (find_matched_images Unit ⟨fun _ => some (), fun _ => [[0]]⟩ "d"
        ["a.jpg", "b.jpg"] [0]).1.Nodup ∧
      ∀ p, (find_matched_images Unit ⟨fun _ => some (), fun _ => [[0]]⟩ "d"
        ["a.jpg", "b.jpg"] [0]).1.count p ≤ 1) :=
  ⟨by decide,
    scan_records_each_file_once Unit ⟨fun _ => some (), fun _ => [[0]]⟩ "d"
      ["a.jpg", "b.jpg"] [0] (by decide)⟩

/-- Modelled from the spec (claim C6): the per-file sequence of
`(currentIndex, totalCount)` arguments the progress callback is invoked
with, for `n` consecutive files starting at index `i` out of `t`. -/
def progressCalls (t : ℕ) : ℕ → ℕ → List (ℕ × ℕ)
  | _, 0 => []
  | i, n + 1 => (i, t) :: progressCalls t (i + 1) n

theorem progressCalls_length (t : ℕ) (i n : ℕ) :
    (progressCalls t i n).length = n := by
  induction n generalizing i with
  | zero => rfl
  | succ m ih => simp [progressCalls, ih]

theorem guiScanAux_trace (I : Type) (env : ScanEnv I) (probe : FaceEncoding)
    (folder : String) (t : ℕ) (l : List String) (i : ℕ) :
    ((guiScanAux I env probe folder t l i).2.filterMap progressOf =
      progressCalls t i l.length) ∧
    ((guiScanAux I env probe folder t l i).2.filterMap matchedOf =
      (guiScanAux I env probe folder t l i).1) := by
  induction l generalizing i with
  | nil => exact ⟨rfl, rfl⟩
  | cons f rest ih =>
    obtain ⟨ih1, ih2⟩ := ih (i + 1)
    by_cases h : guiScanFile I env probe (joinPath folder f)
    · constructor
      · simp [guiScanAux, h, List.filterMap_cons, progressOf, matchedOf,
          progressCalls, ih1]
      · simp [guiScanAux, h, List.filterMap_cons, progressOf, matchedOf, ih2]
    · constructor
      · simp [guiScanAux, h, List.filterMap_cons, progressOf, progressCalls, ih1]
      · simp [guiScanAux, h, List.filterMap_cons, progressOf, matchedOf, ih2]

/-- Claim C6, amended: during an interactive scan the progress callback is
invoked exactly `totalCount` times, with arguments `(1, total)` up to
`(total, total)` in order — one invocation per valid-extension file,
including files skipped as unreadable, at the start of each file's
iteration (before the file is processed, not after) — and the match
callback is invoked exactly on the recorded paths, in record order. -/
theorem scan_callback_trace (I : Type) (env : ScanEnv I) (folder : String)
    (files : List String) (probe : FaceEncoding) :
    ((find_matched_images I env folder files probe).2.filterMap progressOf =
      progressCalls (files.filter (fun f => validExtLower f)).length 1
        (files.filter (fun f => validExtLower f)).length) ∧
    (((find_matched_images I env folder files probe).2.filterMap progressOf).length =
      (files.filter (fun f => validExtLower f)).length) ∧
    ((find_matched_images I env folder files probe).2.filterMap matchedOf =
      (find_matched_images I env folder files probe).1) := by
  obtain ⟨h1, h2⟩ := guiScanAux_trace I env probe folder
    (files.filter (fun f => validExtLower f)).length
    (files.filter (fun f => validExtLower f)) 1
  refine ⟨h1, ?_, h2⟩
  rw [show (find_matched_images I env folder files probe).2 =
    (guiScanAux I env probe folder (files.filter (fun f => validExtLower f)).length
      (files.filter (fun f => validExtLower f)) 1).2 from rfl, h1,
    progressCalls_length]

/-- Modelled from the spec (claim C6's wording): the same scan loop but
with the progress callback invoked after each file is processed, i.e.
after any match callback that file triggers. -/
def guiScanAuxAfter (I : Type) (env : ScanEnv I) (probe : FaceEncoding)
    (folder : String) (total : ℕ) :
    List String → ℕ → List String × List ScanEvent
  | [], _ => ([], [])
  | f :: rest, i =>
    let fp := joinPath folder f
    let r := guiScanAuxAfter I env probe folder total rest (i + 1)
    if guiScanFile I env probe fp then
      (fp :: r.1, ScanEvent.matched fp :: ScanEvent.progress i total :: r.2)
    else
      (r.1, ScanEvent.progress i total :: r.2)

/-- Modelled from the spec (claim C6's wording): `find_matched_images`
as the claim describes it, progress reported after processing each file. -/
def find_matched_images_after (I : Type) (env : ScanEnv I) (folder : String)
    (files : List String) (probe : FaceEncoding) :
    List String × List ScanEvent :=
  let all_files := files.filter (fun f => validExtLower f)
  guiScanAuxAfter I env probe folder all_files.length all_files 1

/-- Claim C6, counterexample: on a folder with one matching file the code's
callback trace is `progress(1,1)` then `matched`, while the claimed
"progress after the file is processed" ordering would give `matched` then
`progress(1,1)`: the progress callback fires before the file is processed. -/
theorem progress_before_processing_cex :
    (find_matched_images Unit ⟨fun _ => some (), fun _ => [[0]]⟩ "d"
        ["a.jpg"] [0]).2 =
      [ScanEvent.progress 1 1, ScanEvent.matched "d/a.jpg"] ∧
    (find_matched_images_after Unit ⟨fun _ => some (), fun _ => [[0]]⟩ "d"
        ["a.jpg"] [0]).2 =
      [ScanEvent.matched "d/a.jpg", ScanEvent.progress 1 1] ∧
    (find_matched_images Unit ⟨fun _ => some (), fun _ => [[0]]⟩ "d"
        ["a.jpg"] [0]).2 ≠
      (find_matched_images_after Unit ⟨fun _ => some (), fun _ => [[0]]⟩ "d"
        ["a.jpg"] [0]).2 := by
  refine ⟨?_, ?_, ?_⟩
  · norm_num [find_matched_images, guiScanAux, guiScanFile, guiFaceLoop, distSq]
    decide
  · norm_num [find_matched_images_after, guiScanAuxAfter, guiScanFile, guiFaceLoop,
      distSq]
    decide
  · intro h
    rw [show (find_matched_images Unit ⟨fun _ => some (), fun _ => [[0]]⟩ "d"
        ["a.jpg"] [0]).2 =
      [ScanEvent.progress 1 1, ScanEvent.matched "d/a.jpg"] from by
        norm_num [find_matched_images, guiScanAux, guiScanFile, guiFaceLoop, distSq]
        decide,
      show (find_matched_images_after Unit ⟨fun _ => some (), fun _ => [[0]]⟩ "d"
        ["a.jpg"] [0]).2 =
      [ScanEvent.matched "d/a.jpg", ScanEvent.progress 1 1] from by
        norm_num [find_matched_images_after, guiScanAuxAfter, guiScanFile,
          guiFaceLoop, distSq]
        decide] at h
    exact absurd h (by decide)

theorem separateScan_nil (I : Type) (env : ScanEnv I) (folder : String)
    (known : List FaceEncoding) (ids : List String) (target : String) :
    separateScan I env folder known ids target [] = Except.ok [] := rfl

theorem separateScan_cons (I : Type) (env : ScanEnv I) (folder : String)
    (known : List FaceEncoding) (ids : List String) (target : String)
    (f : String) (rest : List String) :
    separateScan I env folder known ids target (f :: rest) =
      (if validExtLower f then
        match env.readImage (joinPath folder f) with
        | none => separateScan I env folder known ids target rest
        | some img =>
          match separateFaceLoop known ids target (env.faceEncodings img) with
          | Except.error u => Except.error u
          | Except.ok found =>
            match separateScan I env folder known ids target rest with
            | Except.error u => Except.error u
            | Except.ok ms => Except.ok (if found then f :: ms else ms)
      else separateScan I env folder known ids target rest) := rfl

theorem separateScan_mem_readable (I : Type) (env : ScanEnv I) (folder : String)
    (known : List FaceEncoding) (ids : List String) (target : String)
    (files : List String) (ms : List String)
    (hok : separateScan I env folder known ids target files = Except.ok ms)
    (g : String) (hg : g ∈ ms) :
    env.readImage (joinPath folder g) ≠ none := by
  induction files generalizing ms with
  | nil =>
    rw [separateScan_nil] at hok
    cases hok
    simp at hg
  | cons f rest ih =>
    rw [separateScan_cons] at hok
    by_cases hv : validExtLower f
    · rw [if_pos hv] at hok
      cases hread : env.readImage (joinPath folder f) with
      | none =>
        simp only [hread] at hok
        exact ih ms hok hg
      | some img =>
        simp only [hread] at hok
        cases hloop : separateFaceLoop known ids target (env.faceEncodings img) with
        | error u =>
          simp only [hloop] at hok
          exact Except.noConfusion hok
        | ok found =>
          simp only [hloop] at hok
          cases hrec : separateScan I env folder known ids target rest with
          | error u =>
            simp only [hrec] at hok
            exact Except.noConfusion hok
          | ok ms2 =>
            simp only [hrec] at hok
            injection hok with hms
            subst hms
            by_cases hfound : found
            · subst hfound
              simp only [if_true] at hg
              rcases List.mem_cons.mp hg with hgf | hgrest
              · subst hgf
                rw [hread]
                exact Option.noConfusion
              · exact ih ms2 hrec hgrest
            · simp only [hfound, if_false] at hg
              exact ih ms2 hrec hg
    · rw [if_neg hv] at hok
      exact ih ms hok hg

/-- Claim C7: an unreadable image file is skipped without error and the
scan continues with the remaining files, in all three scripts — the
encoder's `findEncodings` skips `None` images, `separate_images.py` and
`gui_app.py` `continue` past them — and an unreadable file never appears
in the matched/copied output. -/
theorem unreadable_files_skipped (I : Type) (env : ScanEnv I) (folder f : String)
    (rest files : List String) (probe : FaceEncoding) (known : List FaceEncoding)
    (ids : List String) (target : String)
    (hf : env.readImage (joinPath folder f) = none) :
    (∀ (J : Type) (fe : J → List FaceEncoding) (imgs : List (Option J)),
      findEncodings J fe (none :: imgs) = findEncodings J fe imgs) ∧
    (separateScan I env folder known ids target (f :: rest) =
      separateScan I env folder known ids target rest) ∧
    ((find_matched_images I env folder (f :: rest) probe).1 =
      (find_matched_images I env folder rest probe).1) ∧
    (∀ p, env.readImage p = none →
      p ∉ (find_matched_images I env folder files probe).1) ∧
    (∀ ms, separateScan I env folder known ids target files = Except.ok ms →
      ∀ g, g ∈ ms → env.readImage (joinPath folder g) ≠ none) := by
  refine ⟨fun J fe imgs => rfl, ?_, ?_, ?_, ?_⟩
  · rw [separateScan_cons]
    by_cases hv : validExtLower f
    · rw [if_pos hv]
      simp only [hf]
    · rw [if_neg hv]
  · rw [find_matched_fst, find_matched_fst]
    by_cases hv : validExtLower f
    · simp [List.filter_cons, hv, guiScanFile_unreadable I env probe _ hf]
    · simp [List.filter_cons, hv]
  · intro p hp hmem
    rw [find_matched_fst] at hmem
    obtain ⟨f2, hf2, hjoin⟩ := List.mem_map.mp hmem
    have h2 := (List.mem_filter.mp hf2).2
    rw [hjoin, guiScanFile_unreadable I env probe p hp] at h2
    exact Bool.noConfusion h2
  · intro ms hok g hg
    exact separateScan_mem_readable I env folder known ids target files ms hok g hg

theorem unreadable_files_skipped_witness :
    (ScanEnv.readImage (I := Unit) ⟨fun _ => none, fun _ => []⟩
      (joinPath "d" "a.jpg") = none) ∧
    ((∀ (J : Type) (fe : J → List FaceEncoding) (imgs : List (Option J)),
      findEncodings J fe (none :: imgs) = findEncodings J fe imgs) ∧
    (separateScan Unit ⟨fun _ => none, fun _ => []⟩ "d" [] [] "t" ["a.jpg"] =
      separateScan Unit ⟨fun _ => none, fun _ => []⟩ "d" [] [] "t" []) ∧
    ((find_matched_images Unit ⟨fun _ => none, fun _ => []⟩ "d" ["a.jpg"] []).1 =
      (find_matched_images Unit ⟨fun _ => none, fun _ => []⟩ "d" [] []).1) ∧
    (∀ p, ScanEnv.readImage (I := Unit) ⟨fun _ => none, fun _ => []⟩ p = none →
      p ∉ (find_matched_images Unit ⟨fun _ => none, fun _ => []⟩ "d" ["a.jpg"] []).1) ∧
    (∀ ms, separateScan Unit ⟨fun _ => none, fun _ => []⟩ "d" [] [] "t" ["a.jpg"] =
        Except.ok ms →
      ∀ g, g ∈ ms → ScanEnv.readImage (I := Unit) ⟨fun _ => none, fun _ => []⟩
        (joinPath "d" g) ≠ none)) :=
  ⟨rfl, unreadable_files_skipped Unit ⟨fun _ => none, fun _ => []⟩ "d" "a.jpg"
    [] ["a.jpg"] [] [] [] "t" rfl⟩

/-- Claim C8: the encoder's `findEncodings` fails (the `[0]` indexing
raises) exactly when some readable image in its input yields zero face
encodings; otherwise it succeeds. -/
theorem encoder_zero_faces_fatal_iff (I : Type) (fe : I → List FaceEncoding)
    (imgs : List (Option I)) :
    findEncodings I fe imgs = Except.error () ↔
      ∃ img : I, some img ∈ imgs ∧ fe img = [] := by
  induction imgs with
  | nil =>
    constructor
    · intro h
      exact Except.noConfusion h
    · rintro ⟨img, hm, _⟩
      simp at hm
  | cons o rest ih =>
    cases o with
    | none =>
      rw [show findEncodings I fe (none :: rest) = findEncodings I fe rest from rfl,
        ih]
      constructor
      · rintro ⟨img, hm, hz⟩
        exact ⟨img, List.mem_cons_of_mem _ hm, hz⟩
      · rintro ⟨img, hm, hz⟩
        rcases List.mem_cons.mp hm with hcontra | hmem
        · exact Option.noConfusion hcontra
        · exact ⟨img, hmem, hz⟩
    | some a =>
      cases hfa : fe a with
      | nil =>
        constructor
        · intro _
          exact ⟨a, List.mem_cons_self _ _, hfa⟩
        · intro _
          rw [show findEncodings I fe (some a :: rest) =
            (match fe a with
            | [] => Except.error ()
            | e :: _ =>
              match findEncodings I fe rest with
              | Except.error u => Except.error u
              | Except.ok es => Except.ok (e :: es)) from rfl]
          simp only [hfa]
      | cons e es =>
        rw [show findEncodings I fe (some a :: rest) =
          (match fe a with
          | [] => Except.error ()
          | e2 :: _ =>
            match findEncodings I fe rest with
            | Except.error u => Except.error u
            | Except.ok es2 => Except.ok (e2 :: es2)) from rfl]
        simp only [hfa]
        cases hrec : findEncodings I fe rest with
        | error u =>
          cases u
          constructor
          · intro _
            obtain ⟨img, hm, hz⟩ := ih.mp hrec
            exact ⟨img, List.mem_cons_of_mem _ hm, hz⟩
          · intro _
            rfl
        | ok es2 =>
          constructor
          · intro hcontra
            exact Except.noConfusion hcontra
          · rintro ⟨img, hm, hz⟩
            rcases List.mem_cons.mp hm with heqa | hmem
            · have : img = a := Option.some.inj heqa
              subst this
              rw [hfa] at hz
              exact List.noConfusion hz
            · have := ih.mpr ⟨img, hmem, hz⟩
              rw [this] at hrec
              exact Except.noConfusion hrec

theorem getLast?_cons_of_ne_nil (α : Type) (a : α) (l : List α) (h : l ≠ []) :
    (a :: l).getLast? = l.getLast? := by
  cases l with
  | nil => exact absurd rfl h
  | cons b bs => simp

theorem extract_writeZip (C : Type) (readBytes : String → C)
    (paths : List String) (name : String) :
    extractEntry C (writeZip C readBytes paths) name =
      Option.map readBytes
        ((paths.filter (fun p => basename p == name)).getLast?) := by
  induction paths with
  | nil => rfl
  | cons p ps ih =>
    rw [show writeZip C readBytes (p :: ps) =
      (basename p, readBytes p) :: writeZip C readBytes ps from rfl]
    rw [show extractEntry C ((basename p, readBytes p) :: writeZip C readBytes ps)
        name =
      (match extractEntry C (writeZip C readBytes ps) name with
      | some c2 => some c2
      | none => if basename p = name then some (readBytes p) else none) from rfl]
    rw [ih, List.filter_cons]
    cases hl : (ps.filter (fun q => basename q == name)).getLast? with
    | some q =>
      have hne2 : ps.filter (fun q => basename q == name) ≠ [] := by
        intro h0
        rw [h0] at hl
        exact Option.noConfusion hl
      by_cases hm : (basename p == name) = true
      · simp [hm, hl, getLast?_cons_of_ne_nil String p _ hne2]
      · simp [hm, hl]
    | none =>
      have hnil : ps.filter (fun q => basename q == name) = [] :=
        List.getLast?_eq_none_iff.mp hl
      by_cases hm : (basename p == name) = true
      · have hmeq : basename p = name := by simpa using hm
        simp [hm, hl, hmeq, hnil]
      · have hmne : ¬(basename p = name) := by simpa using hm
        simp [hm, hl, hmne, hnil]

theorem filter_basename_single (paths : List String) (p : String)
    (hnd : (paths.map basename).Nodup) (hp : p ∈ paths) :
    paths.filter (fun q => basename q == basename p) = [p] := by
  induction paths with
  | nil => simp at hp
  | cons q ps ih =>
    rw [List.map_cons] at hnd
    obtain ⟨hq, hnd2⟩ := List.nodup_cons.mp hnd
    rcases List.mem_cons.mp hp with hpq | hpin
    · subst hpq
      rw [List.filter_cons, if_pos (by simp)]
      have hrest : ps.filter (fun r => basename r == basename p) = [] := by
        rw [List.filter_eq_nil_iff]
        intro a ha hcontra
        have hba : basename a = basename p := by simpa using hcontra
        exact hq (hba ▸ List.mem_map_of_mem basename ha)
      rw [hrest]
    · rw [List.filter_cons]
      have hbq : ¬((basename q == basename p) = true) := by
        simp only [beq_iff_eq]
        intro hcontra
        exact hq (hcontra ▸ List.mem_map_of_mem basename hpin)
      rw [if_neg hbq]
      exact ih hnd2 hpin

/-- Claim C9: the archive written for `K` matched paths has exactly `K`
entries, named by base name in order; extraction resolves a name to the
last entry written under it, so with `K` pairwise-distinct base names each
file is recoverable under its base name, and with colliding base names the
later write wins. -/
theorem zip_export_entries (C : Type) (readBytes : String → C)
    (paths : List String) :
    (writeZip C readBytes paths).length = paths.length ∧
    (writeZip C readBytes paths).map Prod.fst = paths.map basename ∧
    (∀ name, extractEntry C (writeZip C readBytes paths) name =
      Option.map readBytes
        ((paths.filter (fun p => basename p == name)).getLast?)) ∧
    ((paths.map basename).Nodup → ∀ p, p ∈ paths →
      extractEntry C (writeZip C readBytes paths) (basename p) =
        some (readBytes p)) := by
  refine ⟨?_, ?_, ?_, ?_⟩
  · simp [writeZip]
  · simp [writeZip, List.map_map]
  · intro name
    exact extract_writeZip C readBytes paths name
  · intro hnd p hp
    rw [extract_writeZip, filter_basename_single paths p hnd hp]
    rfl

theorem zip_export_entries_witness :
    ((["x/a.jpg", "y/b.jpg"] : List String).map basename).Nodup ∧
    "x/a.jpg" ∈ (["x/a.jpg", "y/b.jpg"] : List String) ∧
    extractEntry String (writeZip String (fun p => p) ["x/a.jpg", "y/b.jpg"])
      (basename "x/a.jpg") = some "x/a.jpg" :=
  ⟨by decide, by decide,
    (zip_export_entries String (fun p => p) ["x/a.jpg", "y/b.jpg"]).2.2.2
      (by decide) "x/a.jpg" (by decide)⟩

/-- Claim C10: the scanners' extension filter is case-insensitive while the
encoder's is case-sensitive: a file named `x.JPG` passes both scanners
(it is matched by the GUI scan and copied by the separator) but is
silently excluded from the encoder's lists. -/
theorem extension_filter_case_divergence :
    validExtLower "x.JPG" = true ∧
    validExtRaw "x.JPG" = false ∧
    encoderLists Unit (fun _ => some ()) ["x.JPG"] = ([], []) ∧
    (find_matched_images Unit ⟨fun _ => some (), fun _ => [[0]]⟩ "d"
      ["x.JPG"] [0]).1 = [joinPath "d" "x.JPG"] ∧
    separateScan Unit ⟨fun _ => some (), fun _ => [[0]]⟩ "d" [[0]] ["t"] "t"
      ["x.JPG"] = Except.ok ["x.JPG"] := by
  refine ⟨by decide, by decide, by decide, ?_, ?_⟩
  · norm_num [find_matched_images, guiScanAux, guiScanFile, guiFaceLoop, distSq]
  · norm_num [separateScan, separateFaceLoop, matchPrim, faceDistances, distSq,
      npArgmin, npArgminStep]
    decide

/-- Claim C1 is violated by the code (code bug): with the listing
`["a.jpg", "b.jpg"]` where `a.jpg` is unreadable (`cv2.imread` yields
`None`) and `b.jpg` contains one face, the encoder writes 1 encoding but
2 labels: `findEncodings` skips the unreadable image while the label loop
has already recorded its label, so the parallel lists desynchronize. -/
theorem encoder_unreadable_desyncs_labels :
    findEncodings Unit (fun _ => [[1]])
      (encoderLists Unit (fun p => if p = "Images/b.jpg" then some () else none)
        ["a.jpg", "b.jpg"]).1 = Except.ok [[1]] ∧
    (encoderLists Unit (fun p => if p = "Images/b.jpg" then some () else none)
      ["a.jpg", "b.jpg"]).2 = ["a", "b"] ∧
    (∃ es, findEncodings Unit (fun _ => [[1]])
      (encoderLists Unit (fun p => if p = "Images/b.jpg" then some () else none)
        ["a.jpg", "b.jpg"]).1 = Except.ok es ∧
      es.length = 1 ∧
      (encoderLists Unit (fun p => if p = "Images/b.jpg" then some () else none)
        ["a.jpg", "b.jpg"]).2.length = 2 ∧
      es.length ≠
        (encoderLists Unit (fun p => if p = "Images/b.jpg" then some () else none)
          ["a.jpg", "b.jpg"]).2.length) := by
  refine ⟨?_, by decide, ⟨[[1]], ?_, rfl, by decide, by decide⟩⟩
  · norm_num [encoderLists, findEncodings]
  · norm_num [encoderLists, findEncodings]

end FaceFilterer
